import Mathlib

/-!
Verification of the pygdbmi `GdbController` (src/pygdbmi/gdbcontroller.py)
against its natural-language specification.

The embedding is shallow: gdb's raw output bytes are modelled as lists of
characters (gdb/MI traffic is ASCII, so Python's `bytes.decode()` is the
identity on this representation), Python dictionaries become structures,
Python exceptions become `Except` / explicit outcome constructors, and the
`select`/pipe environment is supplied explicitly as data.

The parser module `pygdbmi.gdbmiparser` is not part of the sources under
analysis; the functions imported from it (`parse_response`,
`response_is_finished`) are modelled from the specification, and are marked
as such in their doc comments.
-/

namespace Pygdbmi

/-- Raw bytes read from a pipe, as a list of characters (ASCII traffic;
`bytes.decode()` is the identity under this representation). -/
abbrev Bytes := List Char

/-- Python truthiness of an optional byte string: `None` and `b''` are falsy. -/
def truthy : Option Bytes → Bool
  | none => false
  | some b => !b.isEmpty

/-- The byte content of an optional byte string (`None` reads as empty). -/
def optB : Option Bytes → Bytes
  | none => []
  | some b => b

/-- Split a byte string at the position just after its last `'\n'`:
the first component is `raw_output[:raw_output.rindex(b'\n') + 1]`
(empty when there is no newline), the second is the remainder. -/
def splitAtLastNl : Bytes → Bytes × Bytes
  | [] => ([], [])
  | c :: rest =>
      let p := splitAtLastNl rest
      if p.1 = [] then
        if c = '\n' then (['\n'], rest) else ([], c :: rest)
      else (c :: p.1, p.2)

/-- `str.split('\n')`: split a byte string on newline characters (keeping
empty segments, as Python's `split` does). -/
def splitNl : Bytes → List Bytes
  | [] => [[]]
  | c :: rest =>
      if c = '\n' then [] :: splitNl rest
      else (c :: (splitNl rest).headI) :: (splitNl rest).tail

/-- The nonempty lines of a byte string:
`list(filter(lambda x: x, raw_output.decode().split('\n')))`. -/
def nonemptyLines (b : Bytes) : List Bytes :=
  (splitNl b).filter (fun l => !l.isEmpty)

/-!
## `_buffer_incomplete_responses` (src/pygdbmi/gdbcontroller.py, lines 350-380)
-/

/-- Embedding of `_buffer_incomplete_responses(raw_output, buf)`.

```python
if raw_output:
    if buf:
        raw_output = b''.join([buf, raw_output])
        buf = None
    if b'\n' not in raw_output:
        buf = raw_output
        raw_output = None
    elif not raw_output.endswith(b'\n'):
        remainder_offset = raw_output.rindex(b'\n') + 1
        buf = raw_output[remainder_offset:]
        raw_output = raw_output[:remainder_offset]
return (raw_output, buf)
```
`splitAtLastNl combined` is `(raw_output[:remainder_offset], raw_output[remainder_offset:])`. -/
def buffer_incomplete_responses (raw_output buf : Option Bytes) :
    Option Bytes × Option Bytes :=
  if truthy raw_output then
    let combined : Bytes :=
      if truthy buf then optB buf ++ optB raw_output else optB raw_output
    let buf1 : Option Bytes := if truthy buf then none else buf
    if '\n' ∉ combined then (none, some combined)
    else if combined.getLast? ≠ some '\n' then
      (some (splitAtLastNl combined).1, some (splitAtLastNl combined).2)
    else (some combined, buf1)
  else (raw_output, buf)

/-!
## Claim C4: chunked reassembly equals whole-sequence reassembly
-/

/-- Feed a list of chunks through `_buffer_incomplete_responses` one at a time,
threading the carry-over buffer between calls, and collect the nonempty
decoded lines produced by each call (as `_get_responses_list` does with the
ready part of each call). Returns the lines of all calls together and the
final carry. -/
def feedChunks : List Bytes → Option Bytes → List Bytes × Option Bytes
  | [], buf => ([], buf)
  | c :: cs, buf =>
      let r := buffer_incomplete_responses (some c) buf
      let rest := feedChunks cs r.2
      (nonemptyLines (optB r.1) ++ rest.1, rest.2)

/-!
## The record decoder, modelled from the spec

`pygdbmi.gdbmiparser` is not among the sources under analysis (only
`gdbcontroller.py` and the tests are), so `parse_response` and
`response_is_finished` are modelled from the specification, §4.1.
-/

/-- The kind of a decoded record (`response['type']` in the code):
result, console, target, log, notify, or raw output. -/
inductive RecordType
  | result
  | console
  | target
  | log
  | notify
  | output
deriving DecidableEq

/-- `response['type'] == 'result'`. -/
def RecordType.isResult : RecordType → Bool
  | .result => true
  | _ => false

/-- Modelled from the spec: a decoded payload value is recursively a string,
an ordered sequence of payloads, or a mapping from string keys to payloads. -/
inductive Payload
  | str : String → Payload
  | seq : List Payload → Payload
  | dict : List (String × Payload) → Payload

/-- Modelled from the spec: one decoded record, before the controller tags it
with its source stream. -/
structure ParsedRecord where
  type : RecordType
  message : Option String
  payload : Option Payload
  token : Option Nat

/-- A parsed record tagged with `parsed_response['stream'] = stream`. -/
structure Record extends ParsedRecord where
  stream : String

/-- Modelled from the spec: the recognized escape sequences
`\\ \" \n \t \r \b \f` map to their literal characters. -/
def unescapeChar (c : Char) : Option Char :=
  if c = '\\' then some '\\'
  else if c = '"' then some '"'
  else if c = 'n' then some '\n'
  else if c = 't' then some '\t'
  else if c = 'r' then some '\r'
  else if c = 'b' then some (Char.ofNat 8)
  else if c = 'f' then some (Char.ofNat 12)
  else none

/-- Modelled from the spec: body of a quoted string after the opening quote;
recognized escapes are unescaped, all other characters are copied verbatim,
and scanning stops at the closing quote. -/
def parseQuotedBody : List Char → List Char → Except String (String × List Char)
  | [], _ => .error "unterminated quoted string"
  | '"' :: rest, acc => .ok (String.mk acc.reverse, rest)
  | '\\' :: c :: rest, acc =>
      match unescapeChar c with
      | some u => parseQuotedBody rest (u :: acc)
      | none => parseQuotedBody rest (c :: '\\' :: acc)
  | c :: rest, acc => parseQuotedBody rest (c :: acc)

/-- Modelled from the spec: a quoted string delimited by `"`. -/
def parseQuoted : List Char → Except String (String × List Char)
  | '"' :: rest => parseQuotedBody rest []
  | _ => .error "expected opening quote"

mutual

/-- Modelled from the spec: a value is a quoted string, a tuple `{...}` of
`key=value` pairs, or a list `[...]` of values. The fuel argument bounds the
nesting depth; top-level callers pass the input length, which suffices. -/
def parseValue : Nat → List Char → Except String (Payload × List Char)
  | 0, _ => .error "value nesting exhausted the input"
  | _ + 1, '"' :: rest =>
      match parseQuotedBody rest [] with
      | .error e => .error e
      | .ok (s, rest2) => .ok (.str s, rest2)
  | _ + 1, '{' :: '}' :: rest => .ok (.dict [], rest)
  | fuel + 1, '{' :: rest => parseTupleItems fuel rest []
  | _ + 1, '[' :: ']' :: rest => .ok (.seq [], rest)
  | fuel + 1, '[' :: rest => parseListItems fuel rest []
  | _ + 1, _ => .error "unexpected character where a value was expected"

/-- Modelled from the spec: the comma-separated `key=value` items of a tuple,
up to the closing brace. -/
def parseTupleItems : Nat → List Char → List (String × Payload) →
    Except String (Payload × List Char)
  | 0, _, _ => .error "value nesting exhausted the input"
  | fuel + 1, cs, acc =>
      match parseKeyValue fuel cs with
      | .error e => .error e
      | .ok (kv, rest) =>
          match rest with
          | ',' :: rest2 => parseTupleItems fuel rest2 (acc ++ [kv])
          | '}' :: rest2 => .ok (.dict (acc ++ [kv]), rest2)
          | _ => .error "unbalanced brace in tuple"

/-- Modelled from the spec: the comma-separated values of a list, up to the
closing bracket (heterogeneous lists are legal). -/
def parseListItems : Nat → List Char → List Payload → Except String (Payload × List Char)
  | 0, _, _ => .error "value nesting exhausted the input"
  | fuel + 1, cs, acc =>
      match parseValue fuel cs with
      | .error e => .error e
      | .ok (v, rest) =>
          match rest with
          | ',' :: rest2 => parseListItems fuel rest2 (acc ++ [v])
          | ']' :: rest2 => .ok (.seq (acc ++ [v]), rest2)
          | _ => .error "unbalanced bracket in list"

/-- Modelled from the spec: one `key=value` pair. -/
def parseKeyValue : Nat → List Char → Except String ((String × Payload) × List Char)
  | 0, _ => .error "value nesting exhausted the input"
  | fuel + 1, cs =>
      let key := cs.takeWhile (fun c => c != '=')
      match cs.dropWhile (fun c => c != '=') with
      | '=' :: rest =>
          if key.isEmpty then .error "empty key in key=value pair"
          else
            match parseValue fuel rest with
            | .error e => .error e
            | .ok (v, rest2) => .ok ((String.mk key, v), rest2)
      | _ => .error "expected = in key=value pair"

end

/-- Modelled from the spec: the top-level implicit mapping after a result or
notify message — comma-separated `key=value` pairs with no enclosing braces,
running to the end of the line. -/
def parseTopLevelMap : Nat → List Char → List (String × Payload) →
    Except String (List (String × Payload))
  | 0, _, _ => .error "value nesting exhausted the input"
  | fuel + 1, cs, acc =>
      match parseKeyValue fuel cs with
      | .error e => .error e
      | .ok (kv, rest) =>
          match rest with
          | [] => .ok (acc ++ [kv])
          | ',' :: rest2 => parseTopLevelMap fuel rest2 (acc ++ [kv])
          | _ => .error "unexpected character after top-level value"

/-- Modelled from the spec: for result and notify kinds, an optional bare
identifier up to the next comma or end of line is the message; if a comma
follows, the rest of the line is a top-level implicit mapping; with nothing
after the message the payload is null. -/
def parseResultOrNotify (rt : RecordType) (token : Option Nat) (cs : List Char) :
    Except String ParsedRecord :=
  let msgChars := cs.takeWhile (fun c => c != ',')
  let message : Option String :=
    if msgChars.isEmpty then none else some (String.mk msgChars)
  match cs.dropWhile (fun c => c != ',') with
  | [] => .ok ⟨rt, message, none, token⟩
  | _ :: payloadChars =>
      match parseTopLevelMap (payloadChars.length + 1) payloadChars [] with
      | .error e => .error e
      | .ok m => .ok ⟨rt, message, some (.dict m), token⟩

/-- Modelled from the spec: for console, target and log kinds the remainder
of the line is a single quoted string which becomes the payload; the message
is null. -/
def parseStream (rt : RecordType) (token : Option Nat) (cs : List Char) :
    Except String ParsedRecord :=
  match parseQuoted cs with
  | .error e => .error e
  | .ok (s, rest) =>
      if rest.isEmpty then .ok ⟨rt, none, some (.str s), token⟩
      else .error "trailing characters after quoted string"

/-- `int()` of a run of decimal digits. -/
def digitsToNat (ds : List Char) : Nat :=
  ds.foldl (fun n c => n * 10 + (c.toNat - '0'.toNat)) 0

/-- The token of a line: its optional leading run of decimal digits, parsed
as an integer (`int()`), or absent when there are no leading digits. -/
def tokenOf (line : String) : Option Nat :=
  if (line.toList.takeWhile Char.isDigit).isEmpty then none
  else some (digitsToNat (line.toList.takeWhile Char.isDigit))

/-- The marker characters selecting a record kind. -/
def isMarkerChar (c : Char) : Bool :=
  c == '^' || c == '~' || c == '@' || c == '&' || c == '=' || c == '*' || c == '+'

/-- Modelled from the spec: `gdbmiparser.parse_response`. An optional leading
run of decimal digits is the token; the next character is the marker, mapped
to the record kind (`^` result, `~` console, `@` target, `&` log, and `=`,
`*`, `+` notify); if the first character after the digits is none of these,
the entire original line is the payload of a raw-output record. Malformed
payload text fails with an error carrying a description (the caller sees the
whole read attempt surface the error). -/
def parseAfterMarker (m : Char) (tok : Option Nat) (r : List Char) (line : String) :
    Except String ParsedRecord :=
  if m = '^' then parseResultOrNotify .result tok r
  else if m = '~' then parseStream .console tok r
  else if m = '@' then parseStream .target tok r
  else if m = '&' then parseStream .log tok r
  else if m = '=' ∨ m = '*' ∨ m = '+' then parseResultOrNotify .notify tok r
  else .ok ⟨.output, none, some (.str line), none⟩

/-- Dispatch on the marker character; see the doc comment above
`parseAfterMarker` for the grammar this implements. -/
def parse_response (line : String) : Except String ParsedRecord :=
  match line.toList.dropWhile Char.isDigit with
  | [] => .ok ⟨.output, none, some (.str line), none⟩
  | m :: r => parseAfterMarker m (tokenOf line) r line

/-- Modelled from the spec: `gdbmiparser.response_is_finished` recognizes the
debugger's interactive-prompt sentinel — the fixed literal line `(gdb)`,
optionally followed by trailing whitespace. -/
def response_is_finished (response : String) : Bool :=
  decide (response.toList.take 5 = ['(', 'g', 'd', 'b', ')']) &&
    (response.toList.drop 5).all Char.isWhitespace

/-!
## `_get_responses_list` (src/pygdbmi/gdbcontroller.py, lines 311-339)
-/

/-- The per-line loop of `_get_responses_list`: skip lines recognized by
`response_is_finished`, decode every other line with `parse_response` and tag
it with its stream; a decode error propagates (losing the whole batch, as a
Python exception does). -/
def decodeLines (stream : String) : List Bytes → Except String (List Record)
  | [] => .ok []
  | l :: ls =>
      if response_is_finished (String.mk l) then decodeLines stream ls
      else
        match parse_response (String.mk l) with
        | .error e => .error e
        | .ok pr =>
            match decodeLines stream ls with
            | .error e => .error e
            | .ok rs => .ok ({ toParsedRecord := pr, stream := stream } :: rs)

/-- Embedding of `_get_responses_list(raw_output, stream)`. The incomplete
buffer for the stream is passed in and the updated buffer is returned (the
Python assigns `self._incomplete_output[stream]` before any parsing, so the
buffer is updated even when decoding raises). -/
def get_responses_list (raw_output : Option Bytes) (stream : String)
    (buf : Option Bytes) : Except String (List Record) × Option Bytes :=
  let p := buffer_incomplete_responses raw_output buf
  if truthy p.1 = false then (.ok [], p.2)
  else (decodeLines stream (nonemptyLines (optB p.1)), p.2)

/-- The record decoded from `b"^done\n"` arriving on stdout. -/
def doneRecord : Record :=
  { type := .result, message := some "done", payload := none, token := none,
    stream := "stdout" }

/-- The raw-output record decoded from `b"x\n"` arriving on stdout. -/
def rawXRecord : Record :=
  { type := .output, message := none, payload := some (.str "x"), token := none,
    stream := "stdout" }

/-!
## The process controller (src/pygdbmi/gdbcontroller.py, class GdbController)
-/

/-- The gdb subprocess handle, as far as the controller observes it: the
result of `poll()` (`None` while the process is running). -/
structure Proc where
  poll : Option Int
deriving DecidableEq

/-- The mutable state of a `GdbController` instance touched by the modelled
operations: the process handle, the three pipe file numbers, the per-stream
carry-over buffers (`self._incomplete_output`), whether this instance's
mutex is currently held, whether `terminate()` has been called, and the
command strings flushed to gdb's stdin. -/
structure Controller where
  gdbProcess : Option Proc
  stdoutFd : Nat
  stderrFd : Nat
  stdinFd : Nat
  incompleteStdout : Option Bytes
  incompleteStderr : Option Bytes
  lockHeld : Bool
  terminated : Bool
  sent : List String

/-- The Python exceptions the controller can raise. -/
inductive PyExn
  | noGdbProcess
  | gdbTimeout
  | typeError
  | valueError
  | protocolDecode (msg : String)
deriving DecidableEq

/-- Embedding of `verify_valid_gdb_subprocess`: raise `NoGdbProcessError`
when there is no process object or `poll()` reports it finished. -/
def verify_valid_gdb_subprocess (c : Controller) : Except PyExn Unit :=
  match c.gdbProcess with
  | none => .error .noGdbProcess
  | some p => if p.poll ≠ none then .error .noGdbProcess else .ok ()

/-- A non-blocking `read()` on a pipe: the data the environment has
available for a file number during the current loop pass (`none` when
nothing is available, as in Python 3). -/
def readAvail (avail : List (Nat × Option Bytes)) (fd : Nat) : Option Bytes :=
  match avail.find? (fun pr => pr.1 == fd) with
  | some pr => pr.2
  | none => none

/-- One arm of the `for fileno in events` loop in `_get_responses_unix`:
stdout and stderr reads feed `_get_responses_list` (updating that stream's
carry-over buffer even when decoding raises), and an unexpected file number
releases the mutex and raises `ValueError`. -/
def process_fd (c : Controller) (avail : List (Nat × Option Bytes)) (fd : Nat) :
    Except (PyExn × Controller) (List Record × Controller) :=
  if fd = c.stdoutFd then
    match (get_responses_list (readAvail avail fd) "stdout" c.incompleteStdout).1 with
    | .error e => .error (.protocolDecode e,
        { c with incompleteStdout :=
            (get_responses_list (readAvail avail fd) "stdout" c.incompleteStdout).2 })
    | .ok rs => .ok (rs,
        { c with incompleteStdout :=
            (get_responses_list (readAvail avail fd) "stdout" c.incompleteStdout).2 })
  else if fd = c.stderrFd then
    match (get_responses_list (readAvail avail fd) "stderr" c.incompleteStderr).1 with
    | .error e => .error (.protocolDecode e,
        { c with incompleteStderr :=
            (get_responses_list (readAvail avail fd) "stderr" c.incompleteStderr).2 })
    | .ok rs => .ok (rs,
        { c with incompleteStderr :=
            (get_responses_list (readAvail avail fd) "stderr" c.incompleteStderr).2 })
  else .error (.valueError, { c with lockHeld := false })

/-- The whole `for fileno in events` loop: the records of each file number
are appended in order; an exception aborts the remaining file numbers. -/
def process_events : Controller → List (Nat × Option Bytes) → List Nat →
    Except (PyExn × Controller) (List Record × Controller)
  | c, _, [] => .ok ([], c)
  | c, avail, fd :: fds =>
      match process_fd c avail fd with
      | .error p => .error p
      | .ok p =>
          match process_events p.2 avail fds with
          | .error q => .error q
          | .ok q => .ok (p.1 ++ q.1, q.2)

/-- One pass of the `while(True)` loop: the data available per file number
during this pass, and the result of the `time.time() > timeout_time_sec`
check at its end. -/
structure LoopIter where
  avail : List (Nat × Option Bytes)
  pastDeadline : Bool

/-- The outcome of a controller call: a normal return carrying the final
controller state, a propagating exception carrying the state at the moment
of propagation (in particular whether the mutex is still held), or no
return at all (the call blocks forever). -/
inductive UnixOutcome
  | ok (rs : List Record) (c : Controller)
  | exn (e : PyExn) (c : Controller)
  | hangs

/-- The `while(True)` loop of `_get_responses_unix` (lines 267-307).
Exhausting the supplied loop passes without hitting a `break` models an
execution that is still looping: `hangs`.

```python
while(True):
    try:
        for fileno in events: ...
    except IOError:
        pass
    if blocking_call:
        result_received = False
        if wait_for_result:
            for response in responses:
                if response['type'] == 'result':
                    result_received = True
        else:
            result_received = True
        if result_received:
            break
    elif timeout_sec == 0:
        break
    elif time.time() > timeout_time_sec:
        break
```
-/
def unix_loop : Controller → List Nat → Bool → Bool → Bool → List Record →
    List LoopIter → UnixOutcome
  | _, _, _, _, _, _, [] => .hangs
  | c, events, blocking_call, wait_for_result, timeoutZero, responses, it :: rest =>
      match process_events c it.avail events with
      | .error p => .exn p.1 p.2
      | .ok p =>
          let responses2 := responses ++ p.1
          if blocking_call then
            if (if wait_for_result then responses2.any (fun r => r.type.isResult)
                else true) then
              .ok responses2 p.2
            else unix_loop p.2 events blocking_call wait_for_result timeoutZero
              responses2 rest
          else if timeoutZero then .ok responses2 p.2
          else if it.pastDeadline then .ok responses2 p.2
          else unix_loop p.2 events blocking_call wait_for_result timeoutZero
            responses2 rest

/-- The environment of one `_get_responses_unix` call: whether a blocking
`select` would never fire, the ready file numbers `select` reports (computed
once, before the loop), and the successive loop passes. -/
structure UnixEnv where
  selectHangs : Bool
  events : List Nat
  iters : List LoopIter

/-- Embedding of `_get_responses_unix(timeout_sec, verbose, blocking_call,
wait_for_result)`: a blocking select that never fires blocks the call;
otherwise the loop runs over the events from the single select. -/
def get_responses_unix (c : Controller) (timeout_sec : Int)
    (blocking_call wait_for_result : Bool) (env : UnixEnv) : UnixOutcome :=
  if blocking_call && env.selectHangs then .hangs
  else unix_loop c env.events blocking_call wait_for_result
    (decide (timeout_sec = 0)) [] env.iters

/-- `MUTEX_AQUIRE_WAIT_TIME_SEC = int(1)` (line 15). -/
def MUTEX_AQUIRE_WAIT_TIME_SEC : Int := 1

/-- The outcome of `multiprocessing.Lock.acquire`. -/
inductive LockResult
  | acquired
  | failed
  | blockedForever
deriving DecidableEq

/-- Python `multiprocessing.Lock.acquire(block=True, timeout=None)` called
with a single positional argument, as `self.mutex.acquire(MUTEX_AQUIRE_WAIT_TIME_SEC)`
does: the argument is `block`, not a timeout. With a truthy `block` and the
default `timeout=None` the call waits indefinitely — it returns only once
the lock is acquired, and never returns `False`; with a falsy `block` it
returns `False` immediately when the lock is unavailable. -/
def lock_acquire (block : Int) (lockFree holderReleases : Bool) : LockResult :=
  if lockFree then .acquired
  else if block ≠ 0 then
    (if holderReleases then .acquired else .blockedForever)
  else .failed

/-- The environment of one `get_gdb_response` call: whether the mutex is
free at the call, whether a current holder ever releases it, and the unix
read environment. -/
structure GdbEnv where
  lockFree : Bool
  holderReleases : Bool
  unix : UnixEnv

/-- `timeout_sec` clamping: negative values are replaced by 0 with a warning. -/
def clampTimeout (t : Int) : Int := if t < 0 then 0 else t

/-- The tail of `get_gdb_response` after `_get_responses_unix` returns:
`self.mutex.release()` followed by
`if not retval and raise_error_on_timeout: raise GdbTimeoutError(...)`.
A propagating exception skips both statements. -/
def releaseAndMaybeRaise (raise_error_on_timeout : Bool) : UnixOutcome → UnixOutcome
  | .hangs => .hangs
  | .exn e c2 => .exn e c2
  | .ok rs c2 =>
      if rs.isEmpty && raise_error_on_timeout then
        .exn .gdbTimeout { c2 with lockHeld := false }
      else .ok rs { c2 with lockHeld := false }

/-- Embedding of `get_gdb_response(timeout_sec, raise_error_on_timeout,
verbose, blocking_call, wait_for_result)` (lines 173-217): verify the
subprocess, clamp the timeout, call `self.mutex.acquire(MUTEX_AQUIRE_WAIT_TIME_SEC)`
discarding its result (with `block = 1` the only outcomes are acquisition or
waiting forever), run the unix read loop, then release and possibly raise
`GdbTimeoutError`. -/
def get_gdb_response (c : Controller) (timeout_sec : Int)
    (raise_error_on_timeout blocking_call wait_for_result : Bool) (env : GdbEnv) :
    UnixOutcome :=
  match verify_valid_gdb_subprocess c with
  | .error e => .exn e c
  | .ok _ =>
      match lock_acquire MUTEX_AQUIRE_WAIT_TIME_SEC env.lockFree env.holderReleases with
      | .blockedForever => .hangs
      | _ =>
          releaseAndMaybeRaise raise_error_on_timeout
            (get_responses_unix { c with lockHeld := true } (clampTimeout timeout_sec)
              blocking_call wait_for_result env.unix)

/-- Embedding of `exit()` (lines 341-347): terminate the process if one is
attached, then clear the handle. -/
def exit (c : Controller) : Controller :=
  let c1 := if c.gdbProcess.isSome then { c with terminated := true } else c
  { c1 with gdbProcess := none }

/-- The dynamic `mi_cmd_to_write` argument of `write`: a string, a list of
strings, or a value of any other type (which raises `TypeError`). -/
inductive MiCmd
  | str (s : String)
  | strList (xs : List String)
  | other

/-- The command normalization in `write`: lists are joined with newlines,
other types raise `TypeError`. -/
def normalizeCmd : MiCmd → Except PyExn String
  | .str s => .ok s
  | .strList xs => .ok (String.intercalate "\n" xs)
  | .other => .error .typeError

/-- The environment of one `write` call: whether a blocking select on
writability never fires, the writable file numbers select reports, and the
environment of the follow-up read. -/
structure WriteEnv where
  selectHangs : Bool
  outputready : List Nat
  read : GdbEnv

/-- Embedding of `write(mi_cmd_to_write, timeout_sec, verbose,
raise_error_on_timeout, read_response, blocking_call, wait_for_result)`
(lines 98-171): verify the subprocess, clamp the timeout, normalize the
command, append a trailing newline if absent, wait for writability, write
and flush to stdin for the ready stdin file number (an unexpected file
number only prints a message), then delegate to `get_gdb_response` when a
response was requested. -/
def write (c : Controller) (cmd : MiCmd) (timeout_sec : Int)
    (raise_error_on_timeout read_response blocking_call wait_for_result : Bool)
    (env : WriteEnv) : UnixOutcome :=
  match verify_valid_gdb_subprocess c with
  | .error e => .exn e c
  | .ok _ =>
      match normalizeCmd cmd with
      | .error e => .exn e c
      | .ok s =>
          let s_nl := if s.endsWith "\n" then s else s ++ "\n"
          if blocking_call && env.selectHangs then .hangs
          else
            let c1 := env.outputready.foldl
              (fun acc fd =>
                if fd = acc.stdinFd then { acc with sent := acc.sent ++ [s_nl] }
                else acc) c
            if read_response then
              get_gdb_response c1 (clampTimeout timeout_sec) raise_error_on_timeout
                blocking_call wait_for_result env.read
            else .ok [] c1

/-- A live gdb process. -/
def liveProc : Proc := ⟨none⟩

/-- A freshly constructed controller with a live process, empty carry-over
buffers and a free mutex. -/
def ctrl0 : Controller :=
  { gdbProcess := some liveProc, stdoutFd := 3, stderrFd := 4, stdinFd := 5,
    incompleteStdout := none, incompleteStderr := none,
    lockHeld := false, terminated := false, sent := [] }

/-- A read environment in which the mutex is free and a single loop pass
finds no data ready (timeout-zero scenario). -/
def envNoData : GdbEnv :=
  { lockFree := true, holderReleases := false,
    unix := { selectHangs := false, events := [], iters := [⟨[], false⟩] } }

/-- A read environment in which stdout delivers only the prompt sentinel. -/
def envSentinelOnly : UnixEnv :=
  { selectHangs := false, events := [3],
    iters := [⟨[(3, some "(gdb) \n".toList)], false⟩] }

/-- A read environment in which stdout delivers `^done`. -/
def envDone : UnixEnv :=
  { selectHangs := false, events := [3],
    iters := [⟨[(3, some "^done\n".toList)], false⟩] }

/-- Two loop passes both delivering only the prompt sentinel. -/
def envSentinelTwice : UnixEnv :=
  { selectHangs := false, events := [3],
    iters := [⟨[(3, some "(gdb) \n".toList)], false⟩,
              ⟨[(3, some "(gdb) \n".toList)], false⟩] }

/-- A read environment in which stdout delivers a line the decoder rejects
(a console marker not followed by a quoted string). -/
def envBadDecode : GdbEnv :=
  { lockFree := true, holderReleases := false,
    unix := { selectHangs := false, events := [3],
              iters := [⟨[(3, some "~bad\n".toList)], false⟩] } }

/-- A call made while another caller holds the mutex and never releases it. -/
def envLockedForever : GdbEnv :=
  { lockFree := false, holderReleases := false,
    unix := { selectHangs := false, events := [], iters := [⟨[], false⟩] } }

/-- The controller after `exit()`. -/
def exitedCtrl : Controller := exit ctrl0

/-!
## Theorems
-/

/-- A list's last element, extracted from `getLast?`, is a member. -/
theorem mem_of_getLast?_eq {α : Type} {l : List α} {a : α} (h : l.getLast? = some a) :
    a ∈ l := by
  obtain ⟨hne, heq⟩ := List.mem_getLast?_eq_getLast (Option.mem_def.mpr h)
  rw [heq]
  exact List.getLast_mem hne

/-- `getLast?` skips over a cons when the tail is nonempty. -/
theorem getLast?_cons_of_ne_nil {α : Type} {c : α} {l : List α} (h : l ≠ []) :
    (c :: l).getLast? = l.getLast? := by
  simpa using List.getLast?_append_of_ne_nil [c] h

@[simp] theorem optB_none : optB none = [] := rfl

@[simp] theorem optB_some (b : Bytes) : optB (some b) = b := rfl

@[simp] theorem truthy_none : truthy none = false := rfl

@[simp] theorem truthy_some (b : Bytes) : truthy (some b) = !b.isEmpty := rfl

theorem optB_of_not_truthy {o : Option Bytes} (h : truthy o = false) : optB o = [] := by
  cases o with
  | none => rfl
  | some b =>
    simp only [truthy_some, Bool.not_eq_false'] at h
    simpa [optB, List.isEmpty_iff] using h

@[simp] theorem splitAtLastNl_nil : splitAtLastNl [] = ([], []) := rfl

theorem splitAtLastNl_cons_of_ne_nil {c : Char} {rest : Bytes}
    (h : (splitAtLastNl rest).1 ≠ []) :
    splitAtLastNl (c :: rest) = (c :: (splitAtLastNl rest).1, (splitAtLastNl rest).2) := by
  simp [splitAtLastNl, h]

theorem splitAtLastNl_cons_nl_of_nil {rest : Bytes} (h : (splitAtLastNl rest).1 = []) :
    splitAtLastNl ('\n' :: rest) = (['\n'], rest) := by
  simp [splitAtLastNl, h]

theorem splitAtLastNl_cons_other_of_nil {c : Char} {rest : Bytes}
    (h : (splitAtLastNl rest).1 = []) (hc : c ≠ '\n') :
    splitAtLastNl (c :: rest) = ([], c :: rest) := by
  simp [splitAtLastNl, h, hc]

theorem splitAtLastNl_append_eq (l : Bytes) :
    (splitAtLastNl l).1 ++ (splitAtLastNl l).2 = l := by
  induction l with
  | nil => rfl
  | cons c rest ih =>
    by_cases h : (splitAtLastNl rest).1 = []
    · by_cases hc : c = '\n'
      · subst hc; rw [splitAtLastNl_cons_nl_of_nil h]; rfl
      · rw [splitAtLastNl_cons_other_of_nil h hc]; rfl
    · rw [splitAtLastNl_cons_of_ne_nil h]
      simpa using ih

theorem splitAtLastNl_snd_of_fst_nil {l : Bytes} (h : (splitAtLastNl l).1 = []) :
    (splitAtLastNl l).2 = l := by
  have := splitAtLastNl_append_eq l
  rwa [h, List.nil_append] at this

theorem splitAtLastNl_not_mem_snd (l : Bytes) : '\n' ∉ (splitAtLastNl l).2 := by
  induction l with
  | nil => simp
  | cons c rest ih =>
    by_cases h : (splitAtLastNl rest).1 = []
    · have hrest := splitAtLastNl_snd_of_fst_nil h
      rw [hrest] at ih
      by_cases hc : c = '\n'
      · subst hc; rw [splitAtLastNl_cons_nl_of_nil h]; exact ih
      · rw [splitAtLastNl_cons_other_of_nil h hc]
        intro hmem
        rcases List.mem_cons.mp hmem with h1 | h2
        · exact hc h1.symm
        · exact ih h2
    · rw [splitAtLastNl_cons_of_ne_nil h]
      exact ih

theorem splitAtLastNl_of_not_mem {l : Bytes} (h : '\n' ∉ l) :
    splitAtLastNl l = ([], l) := by
  induction l with
  | nil => rfl
  | cons c rest ih =>
    have hc : c ≠ '\n' := fun hc => h (by simp [hc])
    have hrest : '\n' ∉ rest := fun hm => h (List.mem_cons_of_mem _ hm)
    have := ih hrest
    rw [splitAtLastNl_cons_other_of_nil (by rw [this]) hc]

theorem splitAtLastNl_fst_last {l : Bytes} (h : (splitAtLastNl l).1 ≠ []) :
    (splitAtLastNl l).1.getLast? = some '\n' := by
  induction l with
  | nil => simp at h
  | cons c rest ih =>
    by_cases h1 : (splitAtLastNl rest).1 = []
    · by_cases hc : c = '\n'
      · subst hc; rw [splitAtLastNl_cons_nl_of_nil h1]; rfl
      · rw [splitAtLastNl_cons_other_of_nil h1 hc] at h
        simp at h
    · rw [splitAtLastNl_cons_of_ne_nil h1]
      rw [getLast?_cons_of_ne_nil h1]
      exact ih h1

/-- Prefixes that end in a newline (or are empty) pass through `splitAtLastNl`. -/
theorem splitAtLastNl_append_of_endNl {P : Bytes} (X : Bytes)
    (h : P = [] ∨ P.getLast? = some '\n') :
    splitAtLastNl (P ++ X) = (P ++ (splitAtLastNl X).1, (splitAtLastNl X).2) := by
  induction P with
  | nil => simp
  | cons c P' ih =>
    rcases h with h | h
    · exact absurd h (by simp)
    · cases hP' : P' with
      | nil =>
        subst hP'
        have hc : c = '\n' := by simpa using h
        subst hc
        simp only [List.cons_append, List.nil_append]
        by_cases h1 : (splitAtLastNl X).1 = []
        · rw [splitAtLastNl_cons_nl_of_nil h1, splitAtLastNl_snd_of_fst_nil h1, h1]
        · rw [splitAtLastNl_cons_of_ne_nil h1]
      | cons d P'' =>
        rw [← hP']
        have hne : P' ≠ [] := by rw [hP']; simp
        have hlast : P'.getLast? = some '\n' := by
          rw [← h]; exact (getLast?_cons_of_ne_nil hne).symm
        have ihh := ih (Or.inr hlast)
        have hfst : (splitAtLastNl (P' ++ X)).1 ≠ [] := by
          rw [ihh]; simp [hne]
        rw [List.cons_append, splitAtLastNl_cons_of_ne_nil hfst, ihh]
        simp

/-- `splitAtLastNl` of a string ending in a newline keeps everything. -/
theorem splitAtLastNl_of_endNl {l : Bytes} (h : l.getLast? = some '\n') :
    splitAtLastNl l = (l, []) := by
  have := splitAtLastNl_append_of_endNl (P := l) ([]) (Or.inr h)
  simpa using this

theorem splitNl_ne_nil (l : Bytes) : splitNl l ≠ [] := by
  cases l with
  | nil => simp [splitNl]
  | cons c rest =>
    by_cases hc : c = '\n' <;> simp [splitNl, hc]

theorem splitNl_cons_nl (rest : Bytes) : splitNl ('\n' :: rest) = [] :: splitNl rest := by
  simp [splitNl]

theorem splitNl_cons_other {c : Char} (rest : Bytes) (hc : c ≠ '\n') :
    splitNl (c :: rest) = (c :: (splitNl rest).headI) :: (splitNl rest).tail := by
  simp [splitNl, hc]

theorem splitNl_length_ge_two_of_mem {l : Bytes} (h : '\n' ∈ l) :
    2 ≤ (splitNl l).length := by
  induction l with
  | nil => simp at h
  | cons c rest ih =>
    by_cases hc : c = '\n'
    · subst hc
      rw [splitNl_cons_nl]
      have := splitNl_ne_nil rest
      have : 1 ≤ (splitNl rest).length := by
        cases hsp : splitNl rest with
        | nil => exact absurd hsp (splitNl_ne_nil rest)
        | cons a as => simp
      simpa using this
    · have hm : '\n' ∈ rest := by
        rcases List.mem_cons.mp h with h1 | h2
        · exact absurd h1.symm hc
        · exact h2
      rw [splitNl_cons_other rest hc]
      have := ih hm
      cases hsp : splitNl rest with
      | nil => exact absurd hsp (splitNl_ne_nil rest)
      | cons a as =>
        rw [hsp] at this
        simpa using this

theorem splitNl_getLast_of_endNl {l : Bytes} (h : l.getLast? = some '\n') :
    (splitNl l).getLast? = some [] := by
  induction l with
  | nil => simp at h
  | cons c rest ih =>
    cases hr : rest with
    | nil =>
      subst hr
      have hc : c = '\n' := by simpa using h
      subst hc
      simp [splitNl]
    | cons d rest' =>
      rw [← hr]
      have hne : rest ≠ [] := by rw [hr]; simp
      have hlast : rest.getLast? = some '\n' := by
        rw [← h]; exact (getLast?_cons_of_ne_nil hne).symm
      have ihh := ih hlast
      by_cases hc : c = '\n'
      · subst hc
        rw [splitNl_cons_nl]
        rw [getLast?_cons_of_ne_nil (splitNl_ne_nil rest)]
        exact ihh
      · rw [splitNl_cons_other rest hc]
        have hm : '\n' ∈ rest := mem_of_getLast?_eq hlast
        have h2 := splitNl_length_ge_two_of_mem hm
        cases hsp : splitNl rest with
        | nil => exact absurd hsp (splitNl_ne_nil rest)
        | cons a as =>
          cases has : as with
          | nil => rw [hsp, has] at h2; simp at h2
          | cons t ts =>
            rw [hsp, has] at ihh
            show ((c :: a) :: t :: ts).getLast? = some []
            rw [getLast?_cons_of_ne_nil (by simp : (t :: ts : List Bytes) ≠ [])]
            rw [getLast?_cons_of_ne_nil (by simp : (t :: ts : List Bytes) ≠ [])] at ihh
            exact ihh

/-- The distribution lemma for `splitNl` over an append whose left part ends
in a newline: `splitNl (P ++ X) = (splitNl P).dropLast ++ splitNl X`. -/
theorem splitNl_append_of_endNl {P : Bytes} (X : Bytes) (h : P.getLast? = some '\n') :
    splitNl (P ++ X) = (splitNl P).dropLast ++ splitNl X := by
  induction P with
  | nil => simp at h
  | cons c P' ih =>
    cases hP' : P' with
    | nil =>
      subst hP'
      have hc : c = '\n' := by simpa using h
      subst hc
      rw [List.cons_append, List.nil_append, splitNl_cons_nl, splitNl_cons_nl]
      simp [splitNl]
    | cons d P'' =>
      rw [← hP']
      have hne : P' ≠ [] := by rw [hP']; simp
      have hlast : P'.getLast? = some '\n' := by
        rw [← h]; exact (getLast?_cons_of_ne_nil hne).symm
      have ihh := ih hlast
      by_cases hc : c = '\n'
      · subst hc
        rw [List.cons_append, splitNl_cons_nl, splitNl_cons_nl, ihh]
        rw [List.dropLast_cons_of_ne_nil (splitNl_ne_nil P')]
        simp
      · rw [List.cons_append, splitNl_cons_other _ hc, splitNl_cons_other _ hc, ihh]
        have hm : '\n' ∈ P' := mem_of_getLast?_eq hlast
        have h2 := splitNl_length_ge_two_of_mem hm
        cases hsp : splitNl P' with
        | nil => exact absurd hsp (splitNl_ne_nil P')
        | cons a as =>
          cases has : as with
          | nil => rw [hsp, has] at h2; simp at h2
          | cons t ts =>
            simp [List.dropLast_cons₂]

@[simp] theorem nonemptyLines_nil : nonemptyLines [] = [] := rfl

/-- Nonempty-line extraction distributes over append when the left part ends
in a newline (or is empty). -/
theorem nonemptyLines_append_of_endNl {P : Bytes} (X : Bytes)
    (h : P = [] ∨ P.getLast? = some '\n') :
    nonemptyLines (P ++ X) = nonemptyLines P ++ nonemptyLines X := by
  rcases h with h | h
  · subst h; simp
  · unfold nonemptyLines
    rw [splitNl_append_of_endNl X h, List.filter_append]
    congr 1
    -- filtering the dropLast equals filtering the whole split, because the
    -- dropped last element is the empty segment
    have hlast := splitNl_getLast_of_endNl h
    have hsplit := List.dropLast_append_getLast? (l := splitNl P) [] (Option.mem_def.mpr hlast)
    conv_rhs => rw [← hsplit]
    rw [List.filter_append]
    simp

/-- The byte content of the code's `combined` equals `optB buf ++ optB raw`,
whether or not the old buffer was truthy. -/
theorem combined_eq (raw buf : Option Bytes) :
    (if truthy buf then optB buf ++ optB raw else optB raw) = optB buf ++ optB raw := by
  by_cases h : truthy buf
  · simp [h]
  · have hb : optB buf = [] := optB_of_not_truthy (by simpa using h)
    rw [if_neg h, hb, List.nil_append]

/-- Characterization of `_buffer_incomplete_responses` for a truthy chunk:
its two results are exactly the two halves of the combined bytes split just
after the last newline. -/
theorem buffer_incomplete_responses_spec (raw buf : Option Bytes) (h : truthy raw = true) :
    optB (buffer_incomplete_responses raw buf).1 =
      (splitAtLastNl (optB buf ++ optB raw)).1 ∧
    optB (buffer_incomplete_responses raw buf).2 =
      (splitAtLastNl (optB buf ++ optB raw)).2 := by
  unfold buffer_incomplete_responses
  rw [if_pos h]
  simp only [combined_eq raw buf]
  by_cases hmem : '\n' ∈ optB buf ++ optB raw
  · rw [if_neg (not_not_intro hmem)]
    by_cases hend : (optB buf ++ optB raw).getLast? = some '\n'
    · rw [if_neg (not_not_intro hend)]
      rw [splitAtLastNl_of_endNl hend]
      constructor
      · simp
      · by_cases hb : truthy buf
        · simp [hb]
        · simp only [if_neg hb]
          exact optB_of_not_truthy (by simpa using hb)
    · rw [if_pos hend]
      exact ⟨rfl, rfl⟩
  · rw [if_pos hmem]
    rw [splitAtLastNl_of_not_mem hmem]
    exact ⟨rfl, rfl⟩

/-- The falsy-chunk branch returns its arguments unchanged. -/
theorem buffer_incomplete_responses_falsy (raw buf : Option Bytes) (h : truthy raw = false) :
    buffer_incomplete_responses raw buf = (raw, buf) := by
  unfold buffer_incomplete_responses
  rw [if_neg (by simp [h])]

/-- The ready half is empty or ends with a newline (for any arguments). -/
theorem buffer_incomplete_responses_ready_endNl (raw buf : Option Bytes) :
    optB (buffer_incomplete_responses raw buf).1 = [] ∨
      (optB (buffer_incomplete_responses raw buf).1).getLast? = some '\n' := by
  by_cases h : truthy raw
  · rcases buffer_incomplete_responses_spec raw buf h with ⟨h1, _⟩
    rw [h1]
    by_cases hfst : (splitAtLastNl (optB buf ++ optB raw)).1 = []
    · exact Or.inl hfst
    · exact Or.inr (splitAtLastNl_fst_last hfst)
  · rw [buffer_incomplete_responses_falsy raw buf (by simpa using h)]
    exact Or.inl (optB_of_not_truthy (by simpa using h))

/-- The new carry never contains a newline, provided the old carry did not. -/
theorem buffer_incomplete_responses_carry_noNl (raw buf : Option Bytes)
    (hbuf : '\n' ∉ optB buf) :
    '\n' ∉ optB (buffer_incomplete_responses raw buf).2 := by
  by_cases h : truthy raw
  · rcases buffer_incomplete_responses_spec raw buf h with ⟨_, h2⟩
    rw [h2]
    exact splitAtLastNl_not_mem_snd _
  · rw [buffer_incomplete_responses_falsy raw buf (by simpa using h)]
    exact hbuf

/-- Conservation of bytes: ready ++ new carry = old carry ++ chunk, always. -/
theorem buffer_incomplete_responses_conserves (raw buf : Option Bytes) :
    optB (buffer_incomplete_responses raw buf).1 ++
      optB (buffer_incomplete_responses raw buf).2 = optB buf ++ optB raw := by
  by_cases h : truthy raw
  · rcases buffer_incomplete_responses_spec raw buf h with ⟨h1, h2⟩
    rw [h1, h2]
    exact splitAtLastNl_append_eq _
  · rw [buffer_incomplete_responses_falsy raw buf (by simpa using h)]
    rw [optB_of_not_truthy (by simpa using h)]
    simp

/-- Claim C5: for every chunk and carry-over buffer, `_buffer_incomplete_responses`
satisfies: (i) a falsy (empty or absent) chunk is returned unchanged together
with the old carry; (ii) if the combined bytes (carry followed by chunk)
contain no newline, nothing is ready and the whole combination becomes the
new carry; (iii) if they do contain a newline, the ready half is the prefix
up to and including the last newline and the new carry is the suffix after
it; and (iv) in all cases ready ++ new carry = old carry ++ chunk, so bytes
are never dropped, duplicated, or reordered. -/
theorem c5_buffer_incomplete_responses_correct (raw buf : Option Bytes) :
    (truthy raw = false → buffer_incomplete_responses raw buf = (raw, buf)) ∧
    (truthy raw = true → '\n' ∉ optB buf ++ optB raw →
      buffer_incomplete_responses raw buf = (none, some (optB buf ++ optB raw))) ∧
    (truthy raw = true → '\n' ∈ optB buf ++ optB raw →
      optB (buffer_incomplete_responses raw buf).1 =
        (splitAtLastNl (optB buf ++ optB raw)).1 ∧
      optB (buffer_incomplete_responses raw buf).2 =
        (splitAtLastNl (optB buf ++ optB raw)).2) ∧
    (optB (buffer_incomplete_responses raw buf).1 ++
      optB (buffer_incomplete_responses raw buf).2 = optB buf ++ optB raw) := by
  refine ⟨fun h => buffer_incomplete_responses_falsy raw buf h, ?_, ?_, ?_⟩
  · intro h hmem
    unfold buffer_incomplete_responses
    rw [if_pos h]
    simp only [combined_eq raw buf]
    rw [if_pos (by simpa using hmem)]
  · intro h _
    exact buffer_incomplete_responses_spec raw buf h
  · exact buffer_incomplete_responses_conserves raw buf

/-- Witness for C5 at a concrete input: chunk `b"b\nc"`, carry `b"a"`. -/
theorem c5_buffer_incomplete_responses_correct_witness :
    optB (buffer_incomplete_responses (some ['b', '\n', 'c']) (some ['a'])).1 =
      (splitAtLastNl (optB (some ['a']) ++ optB (some ['b', '\n', 'c']))).1 ∧
    optB (buffer_incomplete_responses (some ['b', '\n', 'c']) (some ['a'])).2 =
      (splitAtLastNl (optB (some ['a']) ++ optB (some ['b', '\n', 'c']))).2 :=
  (c5_buffer_incomplete_responses_correct (some ['b', '\n', 'c']) (some ['a'])).2.2.1
    (by decide) (by decide)

/-- Generalized invariant for C4: threading any newline-free carry through a
chunk list produces the nonempty lines of the prefix (up to the last newline)
of carry ++ concatenation, with the tail after the last newline as final carry. -/
theorem feedChunks_spec (cs : List Bytes) (buf : Option Bytes)
    (hbuf : '\n' ∉ optB buf) :
    (feedChunks cs buf).1 =
      nonemptyLines (splitAtLastNl (optB buf ++ cs.flatten)).1 ∧
    optB (feedChunks cs buf).2 = (splitAtLastNl (optB buf ++ cs.flatten)).2 := by
  induction cs generalizing buf with
  | nil =>
    simp only [feedChunks, List.flatten_nil, List.append_nil]
    rw [splitAtLastNl_of_not_mem hbuf]
    simp
  | cons c cs ih =>
    simp only [feedChunks, List.flatten_cons]
    have hready := buffer_incomplete_responses_ready_endNl (some c) buf
    have hcarry := buffer_incomplete_responses_carry_noNl (some c) buf hbuf
    have hcons := buffer_incomplete_responses_conserves (some c) buf
    rcases ih (buffer_incomplete_responses (some c) buf).2 hcarry with ⟨ih1, ih2⟩
    rw [ih1, ih2]
    have key : optB buf ++ (c ++ cs.flatten) =
        optB (buffer_incomplete_responses (some c) buf).1 ++
          (optB (buffer_incomplete_responses (some c) buf).2 ++ cs.flatten) := by
      simp only [← List.append_assoc]
      rw [hcons]
      simp [optB]
    rw [key]
    rw [splitAtLastNl_append_of_endNl _ hready]
    constructor
    · simp only
      rw [nonemptyLines_append_of_endNl _ hready]
    · rfl

/-- Claim C4: for every byte sequence and every choice of split points
partitioning it into successive chunks, feeding the chunks one at a time
through the reassembly function (threading the carry-over buffer between
calls) yields, over all calls together, exactly the same ordered list of
complete decoded lines as feeding the whole sequence in one call — and the
final carry-over also agrees. This holds for arbitrary split points (in
particular, points inside a quoted escape sequence or inside nested braces,
since the function treats all bytes other than the line terminator alike). -/
theorem c4_chunked_reassembly_eq_whole (cs : List Bytes) :
    (feedChunks cs none).1 =
      nonemptyLines (optB (buffer_incomplete_responses (some cs.flatten) none).1) ∧
    optB (feedChunks cs none).2 =
      optB (buffer_incomplete_responses (some cs.flatten) none).2 := by
  rcases feedChunks_spec cs none (by simp) with ⟨h1, h2⟩
  by_cases hfl : truthy (some cs.flatten)
  · rcases buffer_incomplete_responses_spec (some cs.flatten) none hfl with ⟨g1, g2⟩
    rw [g1, g2]
    simpa using ⟨h1, h2⟩
  · have hnil : cs.flatten = [] := by
      simpa [List.isEmpty_iff] using hfl
    rw [buffer_incomplete_responses_falsy _ none (by simpa using hfl)]
    rw [hnil] at h1 h2
    simp only [optB_some, optB_none]
    constructor
    · rw [h1, hnil]
      simp
    · rw [h2]
      simp

/-!
## Claims C8, C9, C10: sentinel consumption, token parsing, blank-line dropping
-/

/-- Every record decoded by the per-line loop arises from a line of its input
that is not the batch-terminator sentinel, via `parse_response`. -/
theorem decodeLines_mem {stream : String} {ls : List Bytes} {rs : List Record}
    (h : decodeLines stream ls = .ok rs) :
    ∀ r ∈ rs, ∃ l, l ∈ ls ∧ response_is_finished (String.mk l) = false ∧
      parse_response (String.mk l) = .ok r.toParsedRecord ∧ r.stream = stream := by
  induction ls generalizing rs with
  | nil =>
    simp only [decodeLines, Except.ok.injEq] at h
    subst h
    simp
  | cons l ls ih =>
    unfold decodeLines at h
    by_cases hf : response_is_finished (String.mk l)
    · rw [if_pos hf] at h
      intro r hr
      obtain ⟨l', hl', rest⟩ := ih h r hr
      exact ⟨l', List.mem_cons_of_mem _ hl', rest⟩
    · rw [if_neg hf] at h
      cases hp : parse_response (String.mk l) with
      | error e => rw [hp] at h; exact (Except.noConfusion h)
      | ok pr =>
        rw [hp] at h
        cases hd : decodeLines stream ls with
        | error e => rw [hd] at h; exact (Except.noConfusion h)
        | ok rs2 =>
          rw [hd] at h
          simp only [Except.ok.injEq] at h
          subst h
          intro r hr
          rcases List.mem_cons.mp hr with hr1 | hr2
          · subst hr1
            exact ⟨l, List.mem_cons_self _ _, by simpa using hf, hp, rfl⟩
          · obtain ⟨l', hl', h1, h2, h3⟩ := ih hd r hr2
            exact ⟨l', List.mem_cons_of_mem _ hl', h1, h2, h3⟩

/-- Claim C8: no batch-terminator sentinel line is ever present as a Record
in a list returned by `_get_responses_list`: every record of a successful
result decodes, via `parse_response`, from a line of the ready output that
the sentinel predicate rejects — lines recognized as the sentinel are
consumed and produce no entry. -/
theorem c8_no_sentinel_record (raw_output : Option Bytes) (stream : String)
    (buf : Option Bytes) (rs : List Record)
    (h : (get_responses_list raw_output stream buf).1 = .ok rs) :
    ∀ r ∈ rs, ∃ l,
      l ∈ nonemptyLines (optB (buffer_incomplete_responses raw_output buf).1) ∧
      response_is_finished (String.mk l) = false ∧
      parse_response (String.mk l) = .ok r.toParsedRecord := by
  unfold get_responses_list at h
  by_cases ht : truthy (buffer_incomplete_responses raw_output buf).1 = false
  · rw [if_pos ht] at h
    simp only [Except.ok.injEq] at h
    subst h
    simp
  · rw [if_neg ht] at h
    intro r hr
    obtain ⟨l, hl, h1, h2, _⟩ := decodeLines_mem h r hr
    exact ⟨l, hl, h1, h2⟩

/-- Witness for C8 at a concrete input: the batch `b"(gdb) \n^done\n"`
produces exactly one record, and it comes from the non-sentinel line. -/
theorem c8_no_sentinel_record_witness :
    ∃ l, l ∈ nonemptyLines
        (optB (buffer_incomplete_responses (some "(gdb) \n^done\n".toList) none).1) ∧
      response_is_finished (String.mk l) = false ∧
      parse_response (String.mk l) = .ok doneRecord.toParsedRecord :=
  c8_no_sentinel_record (some "(gdb) \n^done\n".toList) "stdout" none [doneRecord]
    rfl doneRecord (by simp)

/-- Claim C10: blank lines are silently dropped: the concrete input `b"\n"`
yields an empty record list (no record of any kind, not even raw output),
and in general every record of a successful `_get_responses_list` result
arises from a nonempty segment of the newline split of the ready bytes. -/
theorem c10_blank_lines_dropped :
    (∀ stream, get_responses_list (some ['\n']) stream none = (.ok [], none)) ∧
    (∀ raw_output stream buf rs,
      (get_responses_list raw_output stream buf).1 = .ok rs →
      ∀ r ∈ rs, ∃ l,
        l ∈ splitNl (optB (buffer_incomplete_responses raw_output buf).1) ∧
        l ≠ [] ∧ parse_response (String.mk l) = .ok r.toParsedRecord) := by
  constructor
  · intro stream
    rfl
  · intro raw_output stream buf rs h r hr
    unfold get_responses_list at h
    by_cases ht : truthy (buffer_incomplete_responses raw_output buf).1 = false
    · rw [if_pos ht] at h
      simp only [Except.ok.injEq] at h
      subst h
      simp at hr
    · rw [if_neg ht] at h
      obtain ⟨l, hl, _, h2, _⟩ := decodeLines_mem h r hr
      unfold nonemptyLines at hl
      rw [List.mem_filter] at hl
      refine ⟨l, hl.1, ?_, h2⟩
      have := hl.2
      simpa [List.isEmpty_iff] using this

/-- Witness for C10: the blank-only batch returns no records, and the batch
`b"x\n"` yields a record that comes from a nonempty line. -/
theorem c10_blank_lines_dropped_witness :
    get_responses_list (some ['\n']) "stdout" none = (.ok [], none) ∧
    ∃ l, l ∈ splitNl (optB (buffer_incomplete_responses (some ['x', '\n']) none).1) ∧
      l ≠ [] ∧ parse_response (String.mk l) = .ok rawXRecord.toParsedRecord :=
  ⟨c10_blank_lines_dropped.1 "stdout",
   c10_blank_lines_dropped.2 (some ['x', '\n']) "stdout" none [rawXRecord]
     rfl rawXRecord (by simp)⟩

/-- `takeWhile` passes over a prefix all of whose elements satisfy the predicate. -/
theorem takeWhile_append_of_all {α : Type} {p : α → Bool} {l1 : List α} (l2 : List α)
    (h : l1.all p = true) : (l1 ++ l2).takeWhile p = l1 ++ l2.takeWhile p := by
  induction l1 with
  | nil => simp
  | cons a l ih =>
    simp only [List.all_cons, Bool.and_eq_true] at h
    simp [List.takeWhile_cons, h.1, ih h.2]

/-- `dropWhile` removes a prefix all of whose elements satisfy the predicate. -/
theorem dropWhile_append_of_all {α : Type} {p : α → Bool} {l1 : List α} (l2 : List α)
    (h : l1.all p = true) : (l1 ++ l2).dropWhile p = l2.dropWhile p := by
  induction l1 with
  | nil => simp
  | cons a l ih =>
    simp only [List.all_cons, Bool.and_eq_true] at h
    simp [List.dropWhile_cons, h.1, ih h.2]

/-- Marker characters are not decimal digits. -/
theorem isMarkerChar_not_digit {m : Char} (h : isMarkerChar m = true) :
    m.isDigit = false := by
  simp only [isMarkerChar, Bool.or_eq_true, beq_iff_eq] at h
  rcases h with ((((((h | h) | h) | h) | h) | h) | h) <;> subst h <;> decide

/-- `parse_response` reduces through `parseAfterMarker` once the post-digit
tail of the line is known. -/
theorem parse_response_cons {line : String} {m : Char} {r : List Char}
    (h : line.toList.dropWhile Char.isDigit = m :: r) :
    parse_response line = parseAfterMarker m (tokenOf line) r line := by
  unfold parse_response
  rw [h]

/-- The token passed to `parseResultOrNotify` only lands in the record's
token field. -/
theorem parseResultOrNotify_token (rt : RecordType) (tok : Option Nat) (cs : List Char) :
    parseResultOrNotify rt tok cs =
      (parseResultOrNotify rt none cs).map (fun pr => { pr with token := tok }) := by
  unfold parseResultOrNotify
  cases hd : cs.dropWhile (fun c => c != ',') with
  | nil => simp [Except.map]
  | cons x xs =>
    cases hp : parseTopLevelMap (xs.length + 1) xs [] with
    | error e => simp [hp, Except.map]
    | ok mp => simp [hp, Except.map]

/-- The token passed to `parseStream` only lands in the record's token field. -/
theorem parseStream_token (rt : RecordType) (tok : Option Nat) (cs : List Char) :
    parseStream rt tok cs =
      (parseStream rt none cs).map (fun pr => { pr with token := tok }) := by
  unfold parseStream
  cases hq : parseQuoted cs with
  | error e => simp [Except.map]
  | ok sr =>
    by_cases hr : sr.2.isEmpty
    · simp [hr, Except.map]
    · simp [hr, Except.map]

/-- The token threads through `parseAfterMarker` for every marker character
(the raw-output fallback, which depends on the whole line, is not reached). -/
theorem parseAfterMarker_token {m : Char} (hm : isMarkerChar m = true)
    (tok : Option Nat) (r : List Char) (line line' : String) :
    parseAfterMarker m tok r line =
      (parseAfterMarker m none r line').map (fun pr => { pr with token := tok }) := by
  unfold parseAfterMarker
  by_cases h1 : m = '^'
  · simp only [if_pos h1]
    exact parseResultOrNotify_token .result tok r
  by_cases h2 : m = '~'
  · simp only [if_neg h1, if_pos h2]
    exact parseStream_token .console tok r
  by_cases h3 : m = '@'
  · simp only [if_neg h1, if_neg h2, if_pos h3]
    exact parseStream_token .target tok r
  by_cases h4 : m = '&'
  · simp only [if_neg h1, if_neg h2, if_neg h3, if_pos h4]
    exact parseStream_token .log tok r
  by_cases h5 : m = '=' ∨ m = '*' ∨ m = '+'
  · simp only [if_neg h1, if_neg h2, if_neg h3, if_neg h4, if_pos h5]
    exact parseResultOrNotify_token .notify tok r
  · exfalso
    simp only [isMarkerChar, Bool.or_eq_true, beq_iff_eq] at hm
    rcases hm with ((((((h | h) | h) | h) | h) | h) | h)
    · exact h1 h
    · exact h2 h
    · exact h3 h
    · exact h4 h
    · exact h5 (Or.inl h)
    · exact h5 (Or.inr (Or.inl h))
    · exact h5 (Or.inr (Or.inr h))

/-- Claim C9: `"1342^done"` decodes to a result record with message `done`,
null payload and token 1342; `"^done"` decodes to the same record with a
null token; and in general a leading run of decimal digits before a marker
character is always parsed as the integer token and consumed (the rest of
the line decodes exactly as it would without the digits). -/
theorem c9_token_parsing :
    parse_response "1342^done" =
      .ok ⟨.result, some "done", none, some 1342⟩ ∧
    parse_response "^done" =
      .ok ⟨.result, some "done", none, none⟩ ∧
    ∀ (ds : List Char) (m : Char) (r : List Char),
      ds ≠ [] → ds.all Char.isDigit = true → isMarkerChar m = true →
      parse_response (String.mk (ds ++ m :: r)) =
        (parse_response (String.mk (m :: r))).map
          (fun pr => { pr with token := some (digitsToNat ds) }) := by
  refine ⟨rfl, rfl, ?_⟩
  intro ds m r hne hall hm
  have hnd : Char.isDigit m = false := isMarkerChar_not_digit hm
  have hdrop1 : (String.mk (ds ++ m :: r)).toList.dropWhile Char.isDigit = m :: r := by
    show (ds ++ m :: r).dropWhile Char.isDigit = m :: r
    rw [dropWhile_append_of_all _ hall]
    simp [List.dropWhile_cons, hnd]
  have hdrop2 : (String.mk (m :: r)).toList.dropWhile Char.isDigit = m :: r := by
    show (m :: r).dropWhile Char.isDigit = m :: r
    simp [List.dropWhile_cons, hnd]
  have htake1 : (String.mk (ds ++ m :: r)).toList.takeWhile Char.isDigit = ds := by
    show (ds ++ m :: r).takeWhile Char.isDigit = ds
    rw [takeWhile_append_of_all _ hall]
    simp [List.takeWhile_cons, hnd]
  have htake2 : (String.mk (m :: r)).toList.takeWhile Char.isDigit = [] := by
    show (m :: r).takeWhile Char.isDigit = []
    simp [List.takeWhile_cons, hnd]
  have htok1 : tokenOf (String.mk (ds ++ m :: r)) = some (digitsToNat ds) := by
    unfold tokenOf
    rw [htake1]
    simp [List.isEmpty_iff, hne]
  have htok2 : tokenOf (String.mk (m :: r)) = none := by
    unfold tokenOf
    rw [htake2]
    simp
  rw [parse_response_cons hdrop1, parse_response_cons hdrop2, htok1, htok2]
  exact parseAfterMarker_token hm _ r _ (String.mk (m :: r))

/-- Witness for C9's general clause at a concrete input: the digits `12`
before `^done` are consumed into the token. -/
theorem c9_token_parsing_witness :
    parse_response (String.mk (['1', '2'] ++ '^' :: ['d', 'o', 'n', 'e'])) =
      (parse_response (String.mk ('^' :: ['d', 'o', 'n', 'e']))).map
        (fun pr => { pr with token := some (digitsToNat ['1', '2']) }) :=
  c9_token_parsing.2.2 ['1', '2'] '^' ['d', 'o', 'n', 'e']
    (by decide) (by decide) (by decide)

/-!
## Claims C1, C2, C3: lock release, lock acquisition, blocking-mode termination
-/

/-- Claim C1 (code bug): on the path where decoding a line raises inside the
response-collection step, `get_gdb_response` propagates the exception with
the mutex still held — there is no `finally`, and unlike the unexpected-fd
path no `mutex.release()` precedes the raise. Evaluated at a concrete input:
a console-marker line without a quoted string. -/
theorem c1_lock_not_released_on_decode_error :
    get_gdb_response ctrl0 1 true false false envBadDecode =
      .exn (.protocolDecode "expected opening quote") { ctrl0 with lockHeld := true } ∧
    ({ ctrl0 with lockHeld := true } : Controller).lockHeld = true :=
  ⟨rfl, rfl⟩

/-- Claim C2 (code bug): `self.mutex.acquire(MUTEX_AQUIRE_WAIT_TIME_SEC)`
passes its argument as `block` (truthy, with `timeout=None`), so when the
mutex is held by a caller that never releases it the call blocks forever —
there is no bounded wait, and no path returns an empty list on a failed
acquisition (the acquire result is discarded). -/
theorem c2_acquire_blocks_indefinitely :
    get_gdb_response ctrl0 1 true false false envLockedForever = .hangs ∧
    MUTEX_AQUIRE_WAIT_TIME_SEC ≠ 0 :=
  ⟨rfl, by decide⟩

/-- Counterexample to claim C3 as stated: a blocking-mode read (without
`wait_for_result`) that returns normally can return an empty list — here the
single ready batch holds only the prompt sentinel, which is consumed, yet
the loop breaks immediately. -/
theorem c3_counterexample_blocking_returns_empty :
    ¬ (∀ (c : Controller) (t : Int) (env : UnixEnv) (rs : List Record)
        (c2 : Controller),
        get_responses_unix c t true false env = .ok rs c2 → rs ≠ []) := by
  intro hclaim
  exact hclaim ctrl0 1 envSentinelOnly [] ctrl0 rfl rfl

/-- In blocking mode with `wait_for_result`, the loop only breaks once the
linear scan of all accumulated records finds a result record. -/
theorem unix_loop_wait_result (iters : List LoopIter) :
    ∀ (c : Controller) (events : List Nat) (tz : Bool) (acc rs : List Record)
      (c2 : Controller),
      unix_loop c events true true tz acc iters = .ok rs c2 →
      rs.any (fun r => r.type.isResult) = true := by
  induction iters with
  | nil =>
    intro c events tz acc rs c2 h
    exact UnixOutcome.noConfusion h
  | cons it rest ih =>
    intro c events tz acc rs c2 h
    unfold unix_loop at h
    cases hp : process_events c it.avail events with
    | error p =>
      rw [hp] at h
      exact UnixOutcome.noConfusion h
    | ok p =>
      rw [hp] at h
      simp only [if_true] at h
      by_cases hany : (acc ++ p.1).any (fun r => r.type.isResult) = true
      · rw [if_pos hany] at h
        cases h
        exact hany
      · rw [if_neg hany] at h
        exact ih p.2 events tz (acc ++ p.1) rs c2 h

/-- In blocking mode without `wait_for_result`, the loop breaks at the end of
its first pass no matter what that pass produced: the outcome only depends
on the first loop pass. -/
theorem unix_loop_blocking_first_iter (c : Controller) (events : List Nat)
    (tz : Bool) (acc : List Record) (it : LoopIter) (rest : List LoopIter) :
    unix_loop c events true false tz acc (it :: rest) =
      unix_loop c events true false tz acc [it] := by
  unfold unix_loop
  cases hp : process_events c it.avail events with
  | error p => rfl
  | ok p => rfl

/-- Claim C3, amended: in blocking mode with `wait_for_result`, a normal
return of the unix read loop contains at least one record of kind result
(the claim's second half holds); but in blocking mode without
`wait_for_result` the loop terminates at the end of the first readiness
pass regardless of whether any record was produced — its outcome equals
that of a single-pass run — so the returned list may be empty and the
claim's first half fails. -/
theorem c3_blocking_termination_amended :
    (∀ (c : Controller) (t : Int) (env : UnixEnv) (rs : List Record)
      (c2 : Controller),
      get_responses_unix c t true true env = .ok rs c2 →
      rs.any (fun r => r.type.isResult) = true) ∧
    (∀ (c : Controller) (t : Int) (env : UnixEnv) (it : LoopIter)
      (rest : List LoopIter),
      env.iters = it :: rest →
      get_responses_unix c t true false env =
        get_responses_unix c t true false { env with iters := [it] }) := by
  constructor
  · intro c t env rs c2 h
    unfold get_responses_unix at h
    by_cases hsel : env.selectHangs
    · rw [if_pos (by simp [hsel])] at h
      exact UnixOutcome.noConfusion h
    · rw [if_neg (by simp [hsel])] at h
      exact unix_loop_wait_result env.iters c env.events _ [] rs c2 h
  · intro c t env it rest hiters
    unfold get_responses_unix
    rw [hiters]
    by_cases hsel : env.selectHangs
    · rw [if_pos (by simp [hsel]), if_pos (by simp [hsel])]
    · rw [if_neg (by simp [hsel]), if_neg (by simp [hsel])]
      exact unix_loop_blocking_first_iter c env.events _ [] it rest

/-- Witness for C3's amended statement at concrete inputs: a blocking
`wait_for_result` read that got `^done` contains a result record, and a
blocking read without `wait_for_result` over two sentinel-only passes
equals its single-pass run. -/
theorem c3_blocking_termination_amended_witness :
    ([{ type := .result, message := some "done", payload := none, token := none,
        stream := "stdout" }] : List Record).any (fun r => r.type.isResult) = true ∧
    get_responses_unix ctrl0 1 true false envSentinelTwice =
      get_responses_unix ctrl0 1 true false { envSentinelTwice with
        iters := [⟨[(3, some "(gdb) \n".toList)], false⟩] } :=
  ⟨c3_blocking_termination_amended.1 ctrl0 1 envDone _ ctrl0 rfl,
   c3_blocking_termination_amended.2 ctrl0 1 envSentinelTwice
     ⟨[(3, some "(gdb) \n".toList)], false⟩ [⟨[(3, some "(gdb) \n".toList)], false⟩] rfl⟩

/-!
## Claim C6: GdbTimeoutError is raised exactly for an empty result with strict failure
-/

/-- The only exception `verify_valid_gdb_subprocess` raises is
`NoGdbProcessError`. -/
theorem verify_error_noGdb {c : Controller} {e : PyExn}
    (h : verify_valid_gdb_subprocess c = .error e) : e = .noGdbProcess := by
  unfold verify_valid_gdb_subprocess at h
  cases hg : c.gdbProcess with
  | none =>
    rw [hg] at h
    injection h with h1
    exact h1.symm
  | some p =>
    rw [hg] at h
    have h2 : (if p.poll ≠ none then (Except.error PyExn.noGdbProcess : Except PyExn Unit)
        else Except.ok ()) = Except.error e := h
    by_cases hp : p.poll ≠ none
    · rw [if_pos hp] at h2
      injection h2 with h1
      exact h1.symm
    · rw [if_neg hp] at h2
      exact Except.noConfusion h2

/-- One event-loop arm raises only `ValueError` or a decode error. -/
theorem process_fd_error {c : Controller} {avail : List (Nat × Option Bytes)}
    {fd : Nat} {p : PyExn × Controller}
    (h : process_fd c avail fd = .error p) :
    p.1 = .valueError ∨ ∃ s, p.1 = .protocolDecode s := by
  unfold process_fd at h
  by_cases h1 : fd = c.stdoutFd
  · rw [if_pos h1] at h
    cases hg : (get_responses_list (readAvail avail fd) "stdout" c.incompleteStdout).1 with
    | error e =>
      rw [hg] at h
      injection h with h2
      rw [← h2]
      exact Or.inr ⟨e, rfl⟩
    | ok rs =>
      rw [hg] at h
      exact Except.noConfusion h
  · rw [if_neg h1] at h
    by_cases h2 : fd = c.stderrFd
    · rw [if_pos h2] at h
      cases hg : (get_responses_list (readAvail avail fd) "stderr" c.incompleteStderr).1 with
      | error e =>
        rw [hg] at h
        injection h with h3
        rw [← h3]
        exact Or.inr ⟨e, rfl⟩
      | ok rs =>
        rw [hg] at h
        exact Except.noConfusion h
    · rw [if_neg h2] at h
      injection h with h3
      rw [← h3]
      exact Or.inl rfl

/-- The event loop raises only `ValueError` or a decode error. -/
theorem process_events_error (avail : List (Nat × Option Bytes)) :
    ∀ (fds : List Nat) (c : Controller) (p : PyExn × Controller),
      process_events c avail fds = .error p →
      p.1 = .valueError ∨ ∃ s, p.1 = .protocolDecode s := by
  intro fds
  induction fds with
  | nil =>
    intro c p h
    exact Except.noConfusion h
  | cons fd fds ih =>
    intro c p h
    unfold process_events at h
    cases hf : process_fd c avail fd with
    | error q =>
      rw [hf] at h
      injection h with h2
      rw [← h2]
      exact process_fd_error hf
    | ok q =>
      simp only [hf] at h
      cases hrest : process_events q.2 avail fds with
      | error r =>
        simp only [hrest] at h
        injection h with h2
        rw [← h2]
        exact ih q.2 r hrest
      | ok r =>
        simp only [hrest] at h
        exact Except.noConfusion h

/-- The read loop propagates only `ValueError` or a decode error — never
`GdbTimeoutError`. -/
theorem unix_loop_exn (iters : List LoopIter) :
    ∀ (c : Controller) (events : List Nat) (b w tz : Bool) (acc : List Record)
      (e : PyExn) (c2 : Controller),
      unix_loop c events b w tz acc iters = .exn e c2 →
      e = .valueError ∨ ∃ s, e = .protocolDecode s := by
  induction iters with
  | nil =>
    intro c events b w tz acc e c2 h
    exact UnixOutcome.noConfusion h
  | cons it rest ih =>
    intro c events b w tz acc e c2 h
    unfold unix_loop at h
    cases hp : process_events c it.avail events with
    | error p =>
      rw [hp] at h
      injection h with h1 h2
      rw [← h1]
      exact process_events_error it.avail events c p hp
    | ok p =>
      simp only [hp] at h
      by_cases hb : b = true
      · rw [if_pos hb] at h
        by_cases hc : (if w = true then (acc ++ p.1).any (fun r => r.type.isResult)
            else true) = true
        · rw [if_pos hc] at h
          exact UnixOutcome.noConfusion h
        · rw [if_neg hc] at h
          exact ih p.2 events b w tz (acc ++ p.1) e c2 h
      · rw [if_neg hb] at h
        by_cases htz : tz = true
        · rw [if_pos htz] at h
          exact UnixOutcome.noConfusion h
        · rw [if_neg htz] at h
          by_cases hd : it.pastDeadline = true
          · rw [if_pos hd] at h
            exact UnixOutcome.noConfusion h
          · rw [if_neg hd] at h
            exact ih p.2 events b w tz (acc ++ p.1) e c2 h

/-- `_get_responses_unix` never raises `GdbTimeoutError` itself. -/
theorem get_responses_unix_exn_ne_timeout {c : Controller} {t : Int} {b w : Bool}
    {env : UnixEnv} {e : PyExn} {c2 : Controller}
    (h : get_responses_unix c t b w env = .exn e c2) : e ≠ .gdbTimeout := by
  unfold get_responses_unix at h
  by_cases hsel : (b && env.selectHangs) = true
  · rw [if_pos hsel] at h
    exact UnixOutcome.noConfusion h
  · rw [if_neg hsel] at h
    rcases unix_loop_exn env.iters c env.events b w _ [] e c2 h with h1 | ⟨s, h1⟩ <;>
      subst h1 <;> simp

/-- Analysis of the release-and-maybe-raise tail: a `GdbTimeoutError` can
only arise from a completed read that produced no records, with the strict
flag set. -/
theorem releaseAndMaybeRaise_timeout {raiseF : Bool} {c' : Controller} {t : Int}
    {b w : Bool} {u : UnixEnv} {c2 : Controller}
    (h : releaseAndMaybeRaise raiseF (get_responses_unix c' t b w u) =
      .exn .gdbTimeout c2) :
    raiseF = true ∧ ∃ c3, get_responses_unix c' t b w u = .ok [] c3 ∧
      c2 = { c3 with lockHeld := false } := by
  cases ho : get_responses_unix c' t b w u with
  | hangs =>
    rw [ho] at h
    exact UnixOutcome.noConfusion h
  | exn e c'' =>
    rw [ho] at h
    injection h with h1 h2
    exact absurd h1 (get_responses_unix_exn_ne_timeout ho)
  | ok rs c3 =>
    rw [ho] at h
    have h2 : (if (rs.isEmpty && raiseF) = true then
        UnixOutcome.exn PyExn.gdbTimeout { c3 with lockHeld := false }
      else UnixOutcome.ok rs { c3 with lockHeld := false }) = .exn .gdbTimeout c2 := h
    by_cases hcond : (rs.isEmpty && raiseF) = true
    · rw [if_pos hcond] at h2
      injection h2 with h1 h3
      obtain ⟨hrs, hrf⟩ : rs.isEmpty = true ∧ raiseF = true := by simpa using hcond
      have hrsnil : rs = [] := List.isEmpty_iff.mp hrs
      subst hrsnil
      exact ⟨hrf, c3, rfl, h3.symm⟩
    · rw [if_neg hcond] at h2
      exact UnixOutcome.noConfusion h2

/-- Claim C6: `get_gdb_response` raises `GdbTimeoutError` exactly when the
completed read produced an empty record list and the caller opted into
strict timeout failure (`raise_error_on_timeout`); with the flag disabled
the same empty outcome is returned as an empty list; and concretely, a read
with timeout 0 and no data pending returns an empty list without blocking
and without raising. -/
theorem c6_gdb_timeout_iff :
    (∀ (c : Controller) (t : Int) (raiseF b w : Bool) (env : GdbEnv)
      (c2 : Controller),
      get_gdb_response c t raiseF b w env = .exn .gdbTimeout c2 →
      raiseF = true ∧ ∃ c3,
        get_responses_unix { c with lockHeld := true } (clampTimeout t) b w env.unix
          = .ok [] c3 ∧ c2 = { c3 with lockHeld := false }) ∧
    (∀ (c : Controller) (t : Int) (b w : Bool) (env : GdbEnv) (c3 : Controller),
      verify_valid_gdb_subprocess c = .ok () → env.lockFree = true →
      get_responses_unix { c with lockHeld := true } (clampTimeout t) b w env.unix
        = .ok [] c3 →
      get_gdb_response c t true b w env =
        .exn .gdbTimeout { c3 with lockHeld := false } ∧
      get_gdb_response c t false b w env = .ok [] { c3 with lockHeld := false }) ∧
    get_gdb_response ctrl0 0 false false false envNoData = .ok [] ctrl0 := by
  refine ⟨?_, ?_, rfl⟩
  · intro c t raiseF b w env c2 h
    unfold get_gdb_response at h
    cases hv : verify_valid_gdb_subprocess c with
    | error e =>
      rw [hv] at h
      injection h with h1 h2
      rw [verify_error_noGdb hv] at h1
      exact PyExn.noConfusion h1
    | ok u =>
      rw [hv] at h
      cases hl : lock_acquire MUTEX_AQUIRE_WAIT_TIME_SEC env.lockFree
          env.holderReleases with
      | blockedForever =>
        rw [hl] at h
        exact UnixOutcome.noConfusion h
      | acquired =>
        rw [hl] at h
        exact releaseAndMaybeRaise_timeout h
      | failed =>
        rw [hl] at h
        exact releaseAndMaybeRaise_timeout h
  · intro c t b w env c3 hv hfree hread
    have hla : lock_acquire MUTEX_AQUIRE_WAIT_TIME_SEC env.lockFree
        env.holderReleases = .acquired := by
      unfold lock_acquire
      rw [hfree]
      simp
    constructor
    · unfold get_gdb_response
      rw [hv, hla, hread]
      rfl
    · unfold get_gdb_response
      rw [hv, hla, hread]
      rfl

/-- Witness for C6 at concrete inputs: with no data and timeout 0, the
strict flag raises `GdbTimeoutError` and the lax flag returns `[]`; the
first conjunct is obtained by applying the theorem's first clause to that
concrete raising run. -/
theorem c6_gdb_timeout_iff_witness :
    (true = true ∧ ∃ c3,
      get_responses_unix { ctrl0 with lockHeld := true } (clampTimeout 0) false false
        envNoData.unix = .ok [] c3 ∧ ctrl0 = { c3 with lockHeld := false }) ∧
    get_gdb_response ctrl0 0 true false false envNoData = .exn .gdbTimeout ctrl0 ∧
    get_gdb_response ctrl0 0 false false false envNoData = .ok [] ctrl0 :=
  ⟨c6_gdb_timeout_iff.1 ctrl0 0 true false false envNoData ctrl0 rfl,
   (c6_gdb_timeout_iff.2.1 ctrl0 0 false false envNoData
     { ctrl0 with lockHeld := true } rfl rfl rfl).1,
   (c6_gdb_timeout_iff.2.1 ctrl0 0 false false envNoData
     { ctrl0 with lockHeld := true } rfl rfl rfl).2⟩

/-!
## Claim C7: the Exited state is final
-/

/-- Claim C7: after `exit()` the process handle is null; calling `exit()`
again is a no-op rather than an error; every subsequent `write` or
`get_gdb_response` fails fast with `NoGdbProcessError`, leaving the state
(and in particular the null handle) unchanged — no modelled operation
restores a live process handle. -/
theorem c7_exited_state_final :
    (∀ c : Controller, (exit c).gdbProcess = none) ∧
    (∀ c : Controller, c.gdbProcess = none → exit c = c) ∧
    (∀ (c : Controller) (cmd : MiCmd) (t : Int) (r rr b w : Bool) (env : WriteEnv),
      c.gdbProcess = none → write c cmd t r rr b w env = .exn .noGdbProcess c) ∧
    (∀ (c : Controller) (t : Int) (r b w : Bool) (env : GdbEnv),
      c.gdbProcess = none → get_gdb_response c t r b w env = .exn .noGdbProcess c) := by
  refine ⟨fun c => rfl, ?_, ?_, ?_⟩
  · intro c h
    cases c
    simp only at h
    subst h
    rfl
  · intro c cmd t r rr b w env h
    have hv : verify_valid_gdb_subprocess c = .error .noGdbProcess := by
      unfold verify_valid_gdb_subprocess
      rw [h]
    unfold write
    rw [hv]
  · intro c t r b w env h
    have hv : verify_valid_gdb_subprocess c = .error .noGdbProcess := by
      unfold verify_valid_gdb_subprocess
      rw [h]
    unfold get_gdb_response
    rw [hv]

/-- Witness for C7 at a concrete state: a controller that has exited stays
exited, a repeated `exit()` changes nothing, and `write` and
`get_gdb_response` fail fast with `NoGdbProcessError`. -/
theorem c7_exited_state_final_witness :
    exit exitedCtrl = exitedCtrl ∧
    write exitedCtrl (.str "-break-insert main") 1 true true false false
      ⟨false, [5], envNoData⟩ = .exn .noGdbProcess exitedCtrl ∧
    get_gdb_response exitedCtrl 1 true false false envNoData =
      .exn .noGdbProcess exitedCtrl :=
  ⟨c7_exited_state_final.2.1 exitedCtrl rfl,
   c7_exited_state_final.2.2.1 exitedCtrl (.str "-break-insert main") 1 true true
     false false ⟨false, [5], envNoData⟩ rfl,
   c7_exited_state_final.2.2.2 exitedCtrl 1 true false false envNoData rfl⟩

end Pygdbmi
